import Mathlib

/-!
# Verification of the CSV parsing and format-conversion pipeline

Shallow embedding of the repository's test-case normalization pipeline:

* `src/utils/csvParser.js` — `parseCSVLine` (CSV line tokenizer),
  `parseCSVToTestCases` (header-driven record mapper);
* `src/utils/zephyrExporter.js` — `escapeCSVField`, `formatLabels`,
  `estimateTime`, `generateBDDScript`, `convertToZephyrCSV`;
* the plain-CSV export branch of `handleExport` in the renderer component.

JavaScript strings are embedded as `List Char` (`JStr`); the JS string
operations used by the source (`trim`, `split`, `includes`, `startsWith`,
`toLowerCase`, `join`, regex-based helpers) are given explicit executable
definitions below, restricted to the ASCII whitespace characters the
inputs of interest contain.
-/

/-- JavaScript string, embedded as a list of characters. -/
abbrev JStr := List Char

/-- Convert a Lean string literal to the embedded representation. -/
def str (s : String) : JStr := s.data

/-- ASCII whitespace, the character class backing JS `trim` and `\s`
on the inputs this pipeline handles. -/
def isWS (c : Char) : Bool :=
  c = ' ' || c = '\t' || c = '\n' || c = '\r' || c = '\x0b' || c = '\x0c'

/-- JS `String.prototype.trim`: drop whitespace from both ends. -/
def jsTrim (s : JStr) : JStr :=
  ((s.dropWhile isWS).reverse.dropWhile isWS).reverse

/-- JS `String.prototype.split(sep)` for a one-character separator:
`"".split(sep) = [""]`, separators at the ends yield empty fields. -/
def jsSplitOn (sep : Char) : JStr → List JStr
  | [] => [[]]
  | c :: rest =>
    if c = sep then [] :: jsSplitOn sep rest
    else
      match jsSplitOn sep rest with
      | [] => [[c]]
      | f :: fs => (c :: f) :: fs

/-- JS `Array.prototype.join(sep)`. -/
def jsJoin (sep : JStr) : List JStr → JStr
  | [] => []
  | [x] => x
  | x :: xs => x ++ sep ++ jsJoin sep xs

/-- Membership test for a single character (JS `includes` on a
one-character search string). -/
def hasChar (c : Char) : JStr → Bool
  | [] => false
  | x :: r => x = c || hasChar c r

/-- JS `String.prototype.startsWith`. -/
def startsWithStr : JStr → JStr → Bool
  | _, [] => true
  | [], _ :: _ => false
  | c :: s, p :: ps => c = p && startsWithStr s ps

/-- JS `String.prototype.includes` for a multi-character search string. -/
def jsIncludes : JStr → JStr → Bool
  | s, pat =>
    match s with
    | [] => startsWithStr [] pat
    | c :: rest => startsWithStr (c :: rest) pat || jsIncludes rest pat

/-- JS `String.prototype.toLowerCase` (ASCII). -/
def jsToLower (s : JStr) : JStr := s.map Char.toLower

/-- Count occurrences of a character. -/
def countChar (c : Char) : JStr → Nat
  | [] => 0
  | x :: r => (if x = c then 1 else 0) + countChar c r

/-- Decimal digit character. -/
def digitChar (n : Nat) : Char := Char.ofNat (48 + n)

/-- Decimal representation of a natural number (fuel-driven so that it
reduces inside the kernel). -/
def natToCharsAux : Nat → Nat → JStr
  | 0, _ => []
  | fuel + 1, n =>
    if n < 10 then [digitChar n]
    else natToCharsAux fuel (n / 10) ++ [digitChar (n % 10)]

/-- Decimal representation of a natural number, as emitted by JS number
to-string conversion on a nonnegative integer. -/
def natToChars (n : Nat) : JStr := natToCharsAux (n + 1) n

/-!
## CSV line tokenizer (`parseCSVLine`, csvParser.js lines 119–154)

Single left-to-right scan with an `inQuotes` flag; `""` inside quotes is
a literal quote; `,` outside quotes closes the current field; every
field is trimmed as it is pushed.
-/

/-- Scanner loop of `parseCSVLine`: the four-way branch on the current
character mirrors the JS `while` loop (current field and result list are
accumulators; the two-character lookahead for `""` is the nested match). -/
def parseCSVLineAux : List Char → Bool → JStr → List JStr → List JStr
  | [], _, cur, acc => acc ++ [jsTrim cur]
  | c :: rest, inQ, cur, acc =>
    if c = '"' then
      if inQ then
        match rest with
        | '"' :: rest' => parseCSVLineAux rest' inQ (cur ++ ['"']) acc
        | [] => parseCSVLineAux [] (!inQ) cur acc
        | c' :: rest' => parseCSVLineAux (c' :: rest') (!inQ) cur acc
      else parseCSVLineAux rest (!inQ) cur acc
    else if c = ',' && !inQ then parseCSVLineAux rest inQ [] (acc ++ [jsTrim cur])
    else parseCSVLineAux rest inQ (cur ++ [c]) acc

/-- `parseCSVLine` (csvParser.js): tokenize one CSV line honoring quoted
spans and doubled quotes; trims each field. -/
def parseCSVLine (line : JStr) : List JStr := parseCSVLineAux line false [] []

/-!
## Canonical test-case record (§3 data model)

JS objects built by the mapper carry the canonical fields plus any
unrecognized columns; an absent string field is embedded as `[]`
(empty string), which is observationally equal for every truthiness
test the source performs. `qualityScore` (a JS number) is embedded as
`ℚ`; the scores the pipeline manipulates are decimal literals, which
`ℚ` represents exactly.
-/

structure TestCase where
  id : JStr := []
  title : JStr := []
  steps : List JStr := []
  expected : JStr := []
  priority : JStr := []
  category : JStr := []
  type : JStr := []
  qualityScore : ℚ := 0
  extra : List (JStr × JStr) := []
deriving DecidableEq, Repr

/-- Steps-cell decoding (csvParser.js lines 63–71): split on `|` if
present, else on newlines stripping `N. ` numbering, else the whole cell
is one step. -/
def decodeSteps (value : JStr) : List JStr :=
  if hasChar '|' value then (jsSplitOn '|' value).map jsTrim
  else if hasChar '\n' value then
    (jsSplitOn '\n' value).map (fun s => stripNumbering (jsTrim s))
  else [value]
where
  /-- JS `replace(/^\d+\.\s*/, '')`: strip one leading `digits.` plus
  following whitespace, if the string starts that way. -/
  stripNumbering (s : JStr) : JStr :=
    let ds := s.takeWhile Char.isDigit
    if ds = [] then s
    else
      match s.drop ds.length with
      | '.' :: rest => rest.dropWhile isWS
      | _ => s

/-- Digits to a natural number. -/
def digitsToNat (ds : JStr) : Nat :=
  ds.foldl (fun n c => n * 10 + (c.toNat - 48)) 0

/-- Value of the first match of `/(\d+\.?\d*)/` followed by `parseFloat`
(csvParser.js lines 87–89): scan to the first digit, read the integer
part, and an optional fractional part after a dot. -/
def scanNum : JStr → Option ℚ
  | [] => none
  | c :: rest =>
    if c.isDigit then
      let ds := (c :: rest).takeWhile Char.isDigit
      let after := (c :: rest).drop ds.length
      match after with
      | '.' :: tl =>
        let fs := tl.takeWhile Char.isDigit
        some (mkRat (digitsToNat ds * 10 ^ fs.length + digitsToNat fs) (10 ^ fs.length))
      | _ => some (mkRat (digitsToNat ds) 1)
    else scanNum rest

/-- Quality-score extraction: `scoreMatch ? parseFloat(scoreMatch[1]) : 0`. -/
def extractScore (value : JStr) : ℚ := (scanNum value).getD 0

/-- JS `replace(/\s+/g, '_')`: each whitespace run becomes one `_`
(the `Bool` argument records whether the previous character was
whitespace). -/
def normKeyAux : Bool → JStr → JStr
  | _, [] => []
  | prevWS, c :: rest =>
    if isWS c then
      if prevWS then normKeyAux true rest
      else '_' :: normKeyAux true rest
    else c :: normKeyAux false rest

/-- Normalized extra-field key: lowercased header with whitespace runs
replaced by underscores (the header reaching this point is already
lowercased). -/
def normKey (s : JStr) : JStr := normKeyAux false s

/-- Assoc-list update modelling JS property assignment. -/
def setExtra (m : List (JStr × JStr)) (k v : JStr) : List (JStr × JStr) :=
  if m.any (fun e => e.1 = k) then m.map (fun e => if e.1 = k then (k, v) else e)
  else m ++ [(k, v)]

/-- One iteration of the `headers.forEach` switch (csvParser.js lines
51–94): dispatch the value to the canonical field named by the
lowercased header. A header whose normalized extra-key is `id` lands on
the JS `id` property itself, hence on the `id` field here. -/
def applyField (tc : TestCase) (header value : JStr) : TestCase :=
  if jsToLower header = str "testid" ∨ jsToLower header = str "test id" then
    { tc with id := value }
  else if jsToLower header = str "title" then { tc with title := value }
  else if jsToLower header = str "steps" then { tc with steps := decodeSteps value }
  else if jsToLower header = str "expected result" ∨ jsToLower header = str "expected" then
    { tc with expected := value }
  else if jsToLower header = str "priority" then
    { tc with priority := if value = [] then str "Medium" else value }
  else if jsToLower header = str "category" then
    { tc with category := if value = [] then str "Functional" else value }
  else if jsToLower header = str "type" then
    { tc with type := if value = [] then str "Smoke" else value }
  else if jsToLower header = str "quality score" then
    { tc with qualityScore := extractScore value }
  else if normKey (jsToLower header) = str "id" then { tc with id := value }
  else { tc with extra := setExtra tc.extra (normKey (jsToLower header)) value }

/-- `headers.forEach((header, index) => ...)` with `values[index] || ''`:
walk the headers positionally, a missing or empty value is the empty
string. -/
def buildFields : List JStr → List JStr → TestCase → TestCase
  | [], _, tc => tc
  | h :: hs, vs, tc => buildFields hs vs.tail (applyField tc h (vs.headD []))

/-- Build the record for one data row from the header names and the
tokenized values. -/
def buildTestCase (headers values : List JStr) : TestCase :=
  buildFields headers values {}

/-- Header heuristic (csvParser.js lines 15–19): the lowercased line
contains `testid`, `test id`, or `title`. -/
def isHeaderLine (line : JStr) : Bool :=
  jsIncludes (jsToLower line) (str "testid") ||
  jsIncludes (jsToLower line) (str "test id") ||
  jsIncludes (jsToLower line) (str "title")

/-- `lines.findIndex(...)` followed by `lines.slice(headerIndex + 1)`:
the first header line together with the lines after it. -/
def findHeader : List JStr → Option (JStr × List JStr)
  | [] => none
  | l :: rest => if isHeaderLine l then some (l, rest) else findHeader rest

/-- Header-cell extraction (csvParser.js line 28):
`lines[headerIndex].split(',').map(h => h.trim().replace(/"/g, ''))` —
a plain comma split, then trim, then removal of every quote character. -/
def headerCells (line : JStr) : List JStr :=
  (jsSplitOn ',' line).map (fun h => (jsTrim h).filter (fun c => !(c = '"')))

/-- Loop body for one data line (csvParser.js lines 36–103): skip blank,
`---` and `METADATA` lines, skip rows with fewer fields than headers,
and append the built record only when `id` and `title` are non-empty. -/
def procLine (headers : List JStr) (acc : List TestCase) (line : JStr) : List TestCase :=
  if jsTrim line = [] || startsWithStr line (str "---") || jsIncludes line (str "METADATA") then
    acc
  else if (parseCSVLine line).length < headers.length then acc
  else if (buildTestCase headers (parseCSVLine line)).id ≠ [] ∧
      (buildTestCase headers (parseCSVLine line)).title ≠ [] then
    acc ++ [buildTestCase headers (parseCSVLine line)]
  else acc

/-- `parseCSVToTestCases` (csvParser.js lines 6–112): split the trimmed
content into lines, locate the header, and fold the data lines through
`procLine`. The JS `try/catch` and the no-header branch both yield the
empty array; the embedding is a total function. -/
def parseCSVToTestCases (csvContent : JStr) : List TestCase :=
  if csvContent = [] then []
  else
    match findHeader (jsSplitOn '\n' (jsTrim csvContent)) with
    | none => []
    | some (headerLine, dataLines) =>
      dataLines.foldl (procLine (headerCells headerLine)) []

/-!
## Zephyr exporter (`zephyrExporter.js`)
-/

/-- `field.replace(/"/g, '""')`: double every quote character. -/
def escQuotes (field : JStr) : JStr :=
  field.flatMap fun c => if c = '"' then ['"', '"'] else [c]

/-- `escapeCSVField` (zephyrExporter.js lines 87–98): the empty string
passes through; a value containing a comma, newline, or quote is wrapped
in quotes with internal quotes doubled; anything else passes through. -/
def escapeCSVField (field : JStr) : JStr :=
  if field = [] then []
  else if hasChar ',' field || hasChar '\n' field || hasChar '"' field then
    '"' :: escQuotes field ++ ['"']
  else field

/-- `formatLabels` (zephyrExporter.js lines 105–117): collect the truthy
values among category and type and join with `", "`. -/
def formatLabels (tc : TestCase) : JStr :=
  jsJoin (str ", ")
    ((if tc.category = [] then [] else [tc.category]) ++
     (if tc.type = [] then [] else [tc.type]))

/-- `estimateTime` (zephyrExporter.js lines 124–139) for a record whose
steps are an array: `max(stepCount * 2, 5)` minutes, rendered `"Nm"` or
`"Hh Mm"` (minutes omitted when zero). -/
def estimateTime (tc : TestCase) : JStr :=
  let estimatedMinutes := max (tc.steps.length * 2) 5
  if estimatedMinutes ≥ 60 then
    let hours := estimatedMinutes / 60
    let minutes := estimatedMinutes % 60
    if minutes > 0 then natToChars hours ++ str "h " ++ natToChars minutes ++ ['m']
    else natToChars hours ++ ['h']
  else natToChars estimatedMinutes ++ ['m']

/-- Keyword sniffing for one BDD step (zephyrExporter.js lines 157–171). -/
def bddKeyword (index : Nat) (stepText : JStr) : JStr :=
  let low := jsToLower stepText
  if index = 0 then str "Given "
  else if jsIncludes low (str "click") || jsIncludes low (str "enter") ||
          jsIncludes low (str "select") || jsIncludes low (str "submit") then str "When "
  else if jsIncludes low (str "verify") || jsIncludes low (str "should") ||
          jsIncludes low (str "check") then str "Then "
  else str "And "

/-- The `forEach` accumulation of BDD step lines. -/
def bddStepsAux (index : Nat) : List JStr → JStr
  | [] => []
  | s :: rest =>
    let stepText := jsTrim s
    str "  " ++ bddKeyword index stepText ++ stepText ++ ['\n'] ++ bddStepsAux (index + 1) rest

/-- `generateBDDScript` (zephyrExporter.js lines 146–182) for a record
with an array of steps: scenario line, one keyworded line per step, and
a final `Then expected` line when `expected` is non-empty. -/
def generateBDDScript (tc : TestCase) : JStr :=
  let scenario := str "Scenario: " ++ (if tc.title = [] then str "Test Scenario" else tc.title) ++ ['\n']
  let bddSteps := bddStepsAux 0 tc.steps
  scenario ++ bddSteps ++
    (if tc.expected = [] then [] else str "  Then " ++ tc.expected ++ ['\n'])

/-- `steps.map((step, index) => \x7bindex + 1\x7d. \x7bstep\x7d)` numbering. -/
def numberSteps (index : Nat) : List JStr → List JStr
  | [] => []
  | s :: rest => (natToChars index ++ str ". " ++ s) :: numberSteps (index + 1) rest

/-- The numbered, newline-joined step text of one Zephyr row
(zephyrExporter.js lines 36–38). -/
def stepTextOf (tc : TestCase) : JStr := jsJoin ['\n'] (numberSteps 1 tc.steps)

/-- The plain-text script cell (zephyrExporter.js line 47). -/
def plainTextScriptOf (tc : TestCase) : JStr :=
  str "Steps:\n" ++ stepTextOf tc ++ str "\n\nExpected Result:\n" ++ tc.expected

/-- One row of the Zephyr CSV (zephyrExporter.js lines 52–70), in column
order. Parsed records carry no `testData` property, so that cell's
source value is the empty string. -/
def zephyrRow (tc : TestCase) : List JStr :=
  [ escapeCSVField tc.title,
    str "Approved",
    [],
    escapeCSVField tc.title,
    str "/Test Cases",
    (if tc.priority = [] then str "Medium" else tc.priority),
    (if tc.category = [] then str "Functional" else tc.category),
    formatLabels tc,
    [],
    estimateTime tc,
    [],
    [],
    escapeCSVField (stepTextOf tc),
    escapeCSVField [],
    escapeCSVField tc.expected,
    escapeCSVField (plainTextScriptOf tc),
    escapeCSVField (generateBDDScript tc) ]

/-- The 17 fixed Zephyr headers (zephyrExporter.js lines 13–31). -/
def zephyrHeaders : List JStr :=
  [str "Name", str "Status", str "Precondition", str "Objective", str "Folder",
   str "Priority", str "Component", str "Labels", str "Owner", str "Estimated Time",
   str "Coverage (Issues)", str "Coverage (Pages)",
   str "Test Script (Step-by-Step) - Step",
   str "Test Script (Step-by-Step) - Test Data",
   str "Test Script (Step-by-Step) - Expected Result",
   str "Test Script (Plain Text)", str "Test Script (BDD)"]

/-- `convertToZephyrCSV` (zephyrExporter.js lines 11–80): header row and
one row per record, comma-joined cells, newline-joined rows. -/
def convertToZephyrCSV (testCases : List TestCase) : JStr :=
  jsJoin ['\n'] (jsJoin [','] zephyrHeaders :: testCases.map (fun tc => jsJoin [','] (zephyrRow tc)))

/-!
## Plain-CSV export (`handleExport` CSV branch, renderer component
lines 545–568)
-/

/-- JS `Number.prototype.toFixed(1)` on the decimal scores this pipeline
handles: one digit after the decimal point, rounding to nearest
(`⌊q * 10 + 1 / 2⌋`, computed on the numerator and denominator so that
it evaluates inside the kernel). -/
def toFixed1 (q : ℚ) : JStr :=
  let n : Int := Int.fdiv (q.num * 20 + (q.den : Int)) ((q.den : Int) * 2)
  if n < 0 then '-' :: natToChars (n.natAbs / 10) ++ '.' :: natToChars (n.natAbs % 10)
  else natToChars (n.natAbs / 10) ++ '.' :: natToChars (n.natAbs % 10)

/-- A quality report as `handleExport` consumes it: `individual_scores`
entries, each with a `test_id` and a `total_score`. -/
abbrev QualityReport := List (JStr × ℚ)

/-- The six cells of one plain-CSV data row (`handleExport`): the
quality score is looked up in the quality report by the record's id
(`?.total_score || 0`), and title, steps, and expected are wrapped in
literal quotes. -/
def reportScore (report : QualityReport) (id : JStr) : ℚ :=
  match report.find? (fun e => e.1 = id) with
  | some e => e.2
  | none => 0

def plainCSVCells (report : QualityReport) (tc : TestCase) : List JStr :=
  let qualityScore : ℚ := reportScore report tc.id
  [ tc.id,
    '"' :: tc.title ++ ['"'],
    '"' :: jsJoin (str " | ") tc.steps ++ ['"'],
    '"' :: tc.expected ++ ['"'],
    tc.priority,
    if 0 < qualityScore then toFixed1 qualityScore ++ str "/10" else str "N/A" ]

/-- The fixed six-column header of the plain-CSV export. -/
def plainCSVHeaders : List JStr :=
  [str "Test ID", str "Title", str "Steps", str "Expected Result",
   str "Priority", str "Quality Score"]

/-- The CSV branch of `handleExport`: header line, then one line per
record, each terminated by a newline. -/
def handleExportCSV (report : QualityReport) (generatedCases : List TestCase) : JStr :=
  generatedCases.foldl
    (fun content tc => content ++ jsJoin [','] (plainCSVCells report tc) ++ ['\n'])
    (jsJoin [','] plainCSVHeaders ++ ['\n'])

/-!
## Spec-side definitions

These follow the wording of the specification (and of the amended
claims), to be compared against the source-derived definitions above.
-/

/-- The §4.1 escaping rule as the spec words it: a cell holding a value
that contains a comma, a quote, or a newline is the value wrapped in
quotes with internal quotes doubled; otherwise the cell is the value. -/
def EscapedPer41 (value cell : JStr) : Prop :=
  cell =
    if hasChar ',' value || hasChar '\n' value || hasChar '"' value then
      '"' :: (value.flatMap fun c => if c = '"' then ['"', '"'] else [c]) ++ ['"']
    else value

instance (value cell : JStr) : Decidable (EscapedPer41 value cell) := by
  unfold EscapedPer41; infer_instance

/-- The Labels cell as the spec describes it: the `", "`-join of
category and type, skipping absent values. -/
def specLabels (tc : TestCase) : JStr :=
  if tc.category = [] then (if tc.type = [] then [] else tc.type)
  else if tc.type = [] then tc.category
  else tc.category ++ str ", " ++ tc.type

/-- The quality-score cell per the amended claim: the report's
`total_score` for the record's id (0 when absent), formatted `N.N/10`
when positive and `N/A` otherwise. -/
def specQualityCell (report : QualityReport) (tc : TestCase) : JStr :=
  let s : ℚ := (((report.filter (fun e => e.1 = tc.id)).head?).map Prod.snd).getD 0
  if 0 < s then toFixed1 s ++ str "/10" else str "N/A"

/-- Strip one pair of surrounding quotes, as the spec words it. -/
def stripSurroundingQuotes (s : JStr) : JStr :=
  match s with
  | '"' :: rest => if rest.getLast? = some '"' then rest.dropLast else s
  | _ => s

/-- Header tokenization as the spec describes it: the §4.1 tokenizer
(commas inside quoted spans are not separators, fields trimmed), with
surrounding quotes stripped. -/
def specHeaderTokenize (line : JStr) : List JStr :=
  (parseCSVLine line).map (fun h => stripSurroundingQuotes (jsTrim h))


/-!
## Helper lemmas
-/

theorem dropWhile_dropWhile (p : Char → Bool) :
    ∀ l : JStr, (l.dropWhile p).dropWhile p = l.dropWhile p := by
  intro l
  induction l with
  | nil => rfl
  | cons c r ih =>
    by_cases h : p c
    · simpa [List.dropWhile_cons, h] using ih
    · simp [List.dropWhile_cons, h]

theorem dropWhile_append_last (p : Char → Bool) (c : Char) :
    ∀ xs : JStr, (xs ++ [c]).dropWhile p = [] ∨
      ∃ ys, (xs ++ [c]).dropWhile p = ys ++ [c] := by
  intro xs
  induction xs with
  | nil =>
    by_cases h : p c
    · left; simp [List.dropWhile, h]
    · right; exact ⟨[], by simp [List.dropWhile, h]⟩
  | cons x xs ih =>
    by_cases h : p x
    · simpa [List.dropWhile_cons, h] using ih
    · right; exact ⟨x :: xs, by simp [List.dropWhile_cons, h]⟩

/-- Right-trim component of `jsTrim`. -/
theorem trimRight_trimRight (s : JStr) :
    ((((s.reverse.dropWhile isWS).reverse).reverse.dropWhile isWS)).reverse =
      (s.reverse.dropWhile isWS).reverse := by
  rw [List.reverse_reverse, dropWhile_dropWhile]

theorem jsTrim_nil : jsTrim [] = [] := rfl

theorem dropWhile_head_shape (p : Char → Bool) :
    ∀ l : JStr, l.dropWhile p = [] ∨
      ∃ c r, l.dropWhile p = c :: r ∧ p c = false := by
  intro l
  induction l with
  | nil => left; rfl
  | cons c r ih =>
    by_cases h : p c
    · simpa [List.dropWhile_cons, h] using ih
    · right; exact ⟨c, r, by simp [List.dropWhile_cons, h], by simp [h]⟩

theorem jsTrim_idem (s : JStr) : jsTrim (jsTrim s) = jsTrim s := by
  unfold jsTrim
  rcases dropWhile_head_shape isWS s with h | ⟨c, r, h, hc⟩
  · simp [h]
  · rw [h]
    rcases dropWhile_append_last isWS c r.reverse with h2 | ⟨ys, h2⟩
    · have hT : ((c :: r).reverse.dropWhile isWS).reverse = ([] : JStr) := by
        rw [show (c :: r).reverse = r.reverse ++ [c] from by simp, h2]; rfl
      rw [hT]; rfl
    · have hshape : ((c :: r).reverse.dropWhile isWS).reverse = c :: ys.reverse := by
        rw [show (c :: r).reverse = r.reverse ++ [c] by simp, h2]
        simp
      rw [hshape]
      have hdrop : (c :: ys.reverse).dropWhile isWS = c :: ys.reverse := by
        simp [List.dropWhile_cons, hc]
      rw [hdrop, ← hshape, List.reverse_reverse, dropWhile_dropWhile]

/-!
### Step lemmas for the tokenizer scan

One unfolding lemma per transition of the JS `while` loop.
-/

theorem parseCSVLineAux_quote_escaped (rest' : List Char) (cur : JStr) (acc : List JStr) :
    parseCSVLineAux ('"' :: '"' :: rest') true cur acc =
      parseCSVLineAux rest' true (cur ++ ['"']) acc := by
  rw [parseCSVLineAux.eq_2, if_pos rfl, if_pos rfl]

theorem parseCSVLineAux_quote_close_nil (cur : JStr) (acc : List JStr) :
    parseCSVLineAux ['"'] true cur acc = parseCSVLineAux [] false cur acc := by
  rw [parseCSVLineAux.eq_3, if_pos rfl, if_pos rfl]
  rfl

theorem parseCSVLineAux_quote_close (c' : Char) (rest' : List Char) (cur : JStr)
    (acc : List JStr) (h : ¬ c' = '"') :
    parseCSVLineAux ('"' :: c' :: rest') true cur acc =
      parseCSVLineAux (c' :: rest') false cur acc := by
  rw [parseCSVLineAux.eq_4 true cur acc '"' c' rest' (fun hh => h hh), if_pos rfl, if_pos rfl]
  rfl

theorem parseCSVLineAux_quote_off (rest : List Char) (cur : JStr) (acc : List JStr) :
    parseCSVLineAux ('"' :: rest) false cur acc = parseCSVLineAux rest true cur acc := by
  rcases rest with _ | ⟨r, rs⟩
  · rw [parseCSVLineAux.eq_3, if_pos rfl, if_neg (by simp)]
    rfl
  · by_cases hr : r = '"'
    · subst hr
      rw [parseCSVLineAux.eq_2, if_pos rfl, if_neg (by simp)]
      rfl
    · rw [parseCSVLineAux.eq_4 false cur acc '"' r rs (fun hh => hr hh), if_pos rfl,
        if_neg (by simp)]
      rfl

theorem parseCSVLineAux_cons_ne (c : Char) (rest : List Char) (inQ : Bool) (cur : JStr)
    (acc : List JStr) (hne : ¬ c = '"') :
    parseCSVLineAux (c :: rest) inQ cur acc =
      if (decide (c = ',') && !inQ) = true then
        parseCSVLineAux rest inQ [] (acc ++ [jsTrim cur])
      else parseCSVLineAux rest inQ (cur ++ [c]) acc := by
  rcases rest with _ | ⟨r, rs⟩
  · rw [parseCSVLineAux.eq_3, if_neg hne]
  · by_cases hr : r = '"'
    · subst hr
      rw [parseCSVLineAux.eq_2, if_neg hne]
    · rw [parseCSVLineAux.eq_4 inQ cur acc c r rs (fun hh => hr hh), if_neg hne]

/-- Every field pushed by the tokenizer has been trimmed, so trimming it
again changes nothing. -/
theorem parseCSVLineAux_trimFixed :
    ∀ (l : List Char) (inQ : Bool) (cur : JStr) (acc : List JStr),
      (∀ x ∈ acc, jsTrim x = x) →
      ∀ x ∈ parseCSVLineAux l inQ cur acc, jsTrim x = x := by
  intro l inQ cur acc
  induction l, inQ, cur, acc using parseCSVLineAux.induct with
  | case1 inQ cur acc =>
    intro hacc x hx
    rw [parseCSVLineAux.eq_1] at hx
    rcases List.mem_append.mp hx with h | h
    · exact hacc x h
    · rw [List.mem_singleton.mp h]; exact jsTrim_idem cur
  | case2 cur acc rest' ih =>
    intro hacc x hx
    rw [parseCSVLineAux_quote_escaped] at hx
    exact ih hacc x hx
  | case3 cur acc ih =>
    intro hacc x hx
    rw [parseCSVLineAux_quote_close_nil] at hx
    exact ih hacc x hx
  | case4 cur acc c' rest' hne ih =>
    intro hacc x hx
    rw [parseCSVLineAux_quote_close c' rest' cur acc (fun hh => hne hh)] at hx
    exact ih hacc x hx
  | case5 rest inQ cur acc hinq ih =>
    intro hacc x hx
    have h0 : inQ = false := by revert hinq; cases inQ <;> simp
    subst h0
    rw [parseCSVLineAux_quote_off] at hx
    exact ih hacc x hx
  | case6 c rest inQ cur acc hne hsep ih =>
    intro hacc x hx
    rw [parseCSVLineAux_cons_ne c rest inQ cur acc hne, if_pos hsep] at hx
    refine ih ?_ x hx
    intro y hy
    rcases List.mem_append.mp hy with h | h
    · exact hacc y h
    · rw [List.mem_singleton.mp h]; exact jsTrim_idem cur
  | case7 c rest inQ cur acc hne hsep ih =>
    intro hacc x hx
    rw [parseCSVLineAux_cons_ne c rest inQ cur acc hne, if_neg hsep] at hx
    exact ih hacc x hx

/-- Every field produced by `parseCSVLine` is fixed by trimming. -/
theorem parseCSVLine_trimFixed (l : JStr) :
    ∀ x ∈ parseCSVLine l, jsTrim x = x :=
  parseCSVLineAux_trimFixed l false [] [] (by intro x hx; cases hx)

/-- Scanning the quote-doubled form of `s` followed by a closing quote,
starting inside quotes, appends exactly one field: the trim of the
accumulated prefix followed by `s`. -/
theorem parseCSVLineAux_quoted :
    ∀ (s cur : JStr) (acc : List JStr),
      parseCSVLineAux (escQuotes s ++ ['"']) true cur acc = acc ++ [jsTrim (cur ++ s)] := by
  intro s
  induction s with
  | nil =>
    intro cur acc
    show parseCSVLineAux ['"'] true cur acc = _
    rw [parseCSVLineAux_quote_close_nil, parseCSVLineAux.eq_1]
    simp
  | cons c s ih =>
    intro cur acc
    by_cases hc : c = '"'
    · subst hc
      have hsh : escQuotes ('"' :: s) ++ ['"'] = '"' :: '"' :: (escQuotes s ++ ['"']) := by
        simp [escQuotes]
      rw [hsh, parseCSVLineAux_quote_escaped, ih]
      simp
    · have hsh : escQuotes (c :: s) ++ ['"'] = c :: (escQuotes s ++ ['"']) := by
        simp [escQuotes, hc]
      rw [hsh, parseCSVLineAux_cons_ne c _ true cur acc hc, if_neg (by simp), ih]
      simp

/-- A string with an occurrence of a comma, newline, or quote is
non-empty. -/
theorem hasChar_ne_nil {c : Char} {s : JStr} (h : hasChar c s = true) : s ≠ [] := by
  intro he; subst he; simp [hasChar] at h

/-!
### Split/join lemmas
-/

theorem jsSplitOn_ne_nil (sep : Char) : ∀ l : JStr, jsSplitOn sep l ≠ [] := by
  intro l
  induction l with
  | nil => simp [jsSplitOn]
  | cons c rest ih =>
    by_cases h : c = sep
    · simp [jsSplitOn, h]
    · simp only [jsSplitOn, if_neg h]
      rcases hs : jsSplitOn sep rest with _ | ⟨f, fs⟩
      · exact absurd hs ih
      · simp

theorem length_jsSplitOn (sep : Char) :
    ∀ l : JStr, (jsSplitOn sep l).length = countChar sep l + 1 := by
  intro l
  induction l with
  | nil => rfl
  | cons c rest ih =>
    by_cases h : c = sep
    · simp only [jsSplitOn, if_pos h, countChar, if_pos h, List.length_cons, ih]
      omega
    · simp only [jsSplitOn, if_neg h, countChar, if_neg h]
      rcases hs : jsSplitOn sep rest with _ | ⟨f, fs⟩
      · exact absurd hs (jsSplitOn_ne_nil sep rest)
      · rw [hs] at ih
        simpa using ih

theorem jsSplitOn_no_sep (sep : Char) :
    ∀ l : JStr, hasChar sep l = false → jsSplitOn sep l = [l] := by
  intro l
  induction l with
  | nil => intro _; rfl
  | cons c rest ih =>
    intro h
    simp only [hasChar, Bool.or_eq_false_iff] at h
    obtain ⟨h1, h2⟩ := h
    have hcs : ¬ c = sep := by simpa using h1
    simp only [jsSplitOn, if_neg hcs, ih h2]

theorem jsSplitOn_append (sep : Char) :
    ∀ (a t : JStr), hasChar sep a = false →
      jsSplitOn sep (a ++ sep :: t) = a :: jsSplitOn sep t := by
  intro a
  induction a with
  | nil => intro t _; simp [jsSplitOn]
  | cons c r ih =>
    intro t h
    simp only [hasChar, Bool.or_eq_false_iff] at h
    obtain ⟨h1, h2⟩ := h
    have hcs : ¬ c = sep := by simpa using h1
    show jsSplitOn sep (c :: (r ++ sep :: t)) = (c :: r) :: jsSplitOn sep t
    simp only [jsSplitOn, if_neg hcs]
    rw [ih t h2]

theorem hasChar_append_cons (c : Char) (a t : JStr) :
    hasChar c (a ++ c :: t) = true := by
  induction a with
  | nil => simp [hasChar]
  | cons x xs ih => simp [hasChar, ih]

/-- Splitting a `sep`-join of sep-free strings recovers the strings. -/
theorem jsSplitOn_jsJoin (sep : Char) :
    ∀ parts : List JStr, parts ≠ [] → (∀ s ∈ parts, hasChar sep s = false) →
      jsSplitOn sep (jsJoin [sep] parts) = parts := by
  intro parts
  induction parts with
  | nil => intro h; exact absurd rfl h
  | cons x xs ih =>
    intro _ hall
    rcases xs with _ | ⟨y, ys⟩
    · exact jsSplitOn_no_sep sep x (hall x (by simp))
    · have hx : hasChar sep x = false := hall x (by simp)
      have hjoin : jsJoin [sep] (x :: y :: ys) = x ++ sep :: jsJoin [sep] (y :: ys) := by
        simp [jsJoin]
      rw [hjoin, jsSplitOn_append sep x _ hx,
        ih (by simp) (fun s hs => hall s (List.mem_cons_of_mem x hs))]

theorem map_id_of_mem {f : JStr → JStr} :
    ∀ l : List JStr, (∀ x ∈ l, f x = x) → l.map f = l := by
  intro l
  induction l with
  | nil => intro _; rfl
  | cons x xs ih =>
    intro h
    simp only [List.map_cons, h x (by simp),
      ih (fun y hy => h y (List.mem_cons_of_mem x hy))]

/-!
### Record-mapper invariants
-/

theorem applyField_id_cases (tc : TestCase) (h v : JStr) :
    (applyField tc h v).id = tc.id ∨ (applyField tc h v).id = v := by
  unfold applyField
  split_ifs <;> first | exact Or.inl rfl | exact Or.inr rfl

theorem applyField_title_cases (tc : TestCase) (h v : JStr) :
    (applyField tc h v).title = tc.title ∨ (applyField tc h v).title = v := by
  unfold applyField
  split_ifs <;> first | exact Or.inl rfl | exact Or.inr rfl

/-- Through the positional zip, `id` and `title` stay fixed by trimming
whenever the incoming values are. -/
theorem buildFields_trimFixed :
    ∀ (hs vs : List JStr) (tc : TestCase),
      jsTrim tc.id = tc.id → jsTrim tc.title = tc.title →
      (∀ v ∈ vs, jsTrim v = v) →
      jsTrim (buildFields hs vs tc).id = (buildFields hs vs tc).id ∧
        jsTrim (buildFields hs vs tc).title = (buildFields hs vs tc).title := by
  intro hs
  induction hs with
  | nil => intro vs tc h1 h2 _; exact ⟨h1, h2⟩
  | cons h hs ih =>
    intro vs tc h1 h2 hvs
    have hval : jsTrim (vs.headD []) = vs.headD [] := by
      rcases vs with _ | ⟨v, vs'⟩
      · rfl
      · exact hvs v (by simp)
    have htail : ∀ v ∈ vs.tail, jsTrim v = v := by
      rcases vs with _ | ⟨v, vs'⟩
      · intro v hv; cases hv
      · intro w hw; exact hvs w (List.mem_cons_of_mem v hw)
    refine ih vs.tail (applyField tc h (vs.headD [])) ?_ ?_ htail
    · rcases applyField_id_cases tc h (vs.headD []) with hcase | hcase <;> rw [hcase]
      · exact h1
      · exact hval
    · rcases applyField_title_cases tc h (vs.headD []) with hcase | hcase <;> rw [hcase]
      · exact h2
      · exact hval

/-- Only the value positions covered by header names are read. -/
theorem buildFields_take :
    ∀ (hs vs : List JStr) (tc : TestCase),
      buildFields hs vs tc = buildFields hs (vs.take hs.length) tc := by
  intro hs
  induction hs with
  | nil => intro vs tc; rfl
  | cons h hs ih =>
    intro vs tc
    rcases vs with _ | ⟨v, vs'⟩
    · rfl
    · rw [List.length_cons, List.take_succ_cons]
      show buildFields hs vs' (applyField tc h v) =
        buildFields hs (vs'.take hs.length) (applyField tc h v)
      exact ih vs' (applyField tc h v)

/-- Records appended by the data-line loop pass the required-field gate
with trim-fixed `id` and `title`. -/
theorem foldl_procLine_good (headers : List JStr) :
    ∀ (lines : List JStr) (acc : List TestCase),
      (∀ t ∈ acc, jsTrim t.id ≠ [] ∧ jsTrim t.title ≠ []) →
      ∀ t ∈ lines.foldl (procLine headers) acc,
        jsTrim t.id ≠ [] ∧ jsTrim t.title ≠ [] := by
  intro lines
  induction lines with
  | nil => intro acc hacc t ht; exact hacc t ht
  | cons line rest ih =>
    intro acc hacc
    simp only [List.foldl_cons]
    refine ih (procLine headers acc line) ?_
    intro t ht
    unfold procLine at ht
    split_ifs at ht with hskip hlen hgate
    · exact hacc t ht
    · exact hacc t ht
    · rcases List.mem_append.mp ht with h | h
      · exact hacc t h
      · rw [List.mem_singleton.mp h]
        obtain ⟨hid, htitle⟩ :=
          buildFields_trimFixed headers (parseCSVLine line) {} rfl rfl
            (parseCSVLine_trimFixed line)
        unfold buildTestCase at hgate ⊢
        constructor
        · rw [hid]; exact hgate.1
        · rw [htitle]; exact hgate.2
    · exact hacc t ht

/-- If no line passes the header heuristic, no header is found. -/
theorem findHeader_eq_none :
    ∀ lines : List JStr, (∀ l ∈ lines, isHeaderLine l = false) →
      findHeader lines = none := by
  intro lines
  induction lines with
  | nil => intro _; rfl
  | cons l rest ih =>
    intro h
    have hl : isHeaderLine l = false := h l (by simp)
    simp only [findHeader, hl, Bool.false_eq_true, if_false]
    exact ih (fun x hx => h x (List.mem_cons_of_mem l hx))

/-- `find?` equals the head of `filter`. -/
theorem find?_eq_head_filter (p : JStr × ℚ → Bool) :
    ∀ l : QualityReport, l.find? p = (l.filter p).head? := by
  intro l
  induction l with
  | nil => rfl
  | cons e rest ih =>
    by_cases h : p e
    · rw [List.find?_cons_of_pos _ h, List.filter_cons_of_pos h]
      rfl
    · rw [List.find?_cons_of_neg _ (by simpa using h), List.filter_cons_of_neg (by simpa using h), ih]

theorem hasChar_filter_ne (l : JStr) :
    hasChar '"' (l.filter (fun c => !(c = '"'))) = false := by
  induction l with
  | nil => rfl
  | cons c rest ih =>
    by_cases h : c = '"'
    · simp [List.filter_cons, h, ih]
    · simp [List.filter_cons, h, hasChar, ih]


/-!
## Claim theorems
-/

/-- C1: the two-line raw input parses to exactly one record with
id `TC-001`, title `Login works`, steps `[Enter user, Click login]`,
expected `User is logged in`, priority `High`, and the Plain-CSV export
of that record sequence consists of the fixed header line followed by
the data row `TC-001,"Login works","Enter user | Click login","User is
logged in",High,N/A`. -/
theorem c1_end_to_end :
    parseCSVToTestCases
      (str "TestID,Title,Steps,Expected Result,Priority\nTC-001,Login works,\"Enter user|Click login\",User is logged in,High") =
      [{ id := str "TC-001", title := str "Login works",
         steps := [str "Enter user", str "Click login"],
         expected := str "User is logged in", priority := str "High" }] ∧
    handleExportCSV []
      (parseCSVToTestCases
        (str "TestID,Title,Steps,Expected Result,Priority\nTC-001,Login works,\"Enter user|Click login\",User is logged in,High")) =
      str "Test ID,Title,Steps,Expected Result,Priority,Quality Score\nTC-001,\"Login works\",\"Enter user | Click login\",\"User is logged in\",High,N/A\n" := by
  decide

/-- C2: when no line of the input passes the header heuristic, the
record mapper returns the empty sequence (the embedding is a total
function, so no exception can reach the caller). -/
theorem c2_no_header_empty (content : JStr)
    (h : ∀ l ∈ jsSplitOn '\n' (jsTrim content), isHeaderLine l = false) :
    parseCSVToTestCases content = [] := by
  unfold parseCSVToTestCases
  by_cases hc : content = []
  · rw [if_pos hc]
  · rw [if_neg hc, findHeader_eq_none _ h]

/-- Witness for C2 at a concrete header-free input. -/
theorem c2_no_header_empty_witness :
    (∀ l ∈ jsSplitOn '\n' (jsTrim (str "just some text\nno header here")),
      isHeaderLine l = false) ∧
    parseCSVToTestCases (str "just some text\nno header here") = [] :=
  ⟨by decide, c2_no_header_empty _ (by decide)⟩

/-- C3: every record in the mapper's output has a non-empty id and a
non-empty title after trimming, for every input. -/
theorem c3_required_field_gate (content : JStr) (tc : TestCase)
    (h : tc ∈ parseCSVToTestCases content) :
    jsTrim tc.id ≠ [] ∧ jsTrim tc.title ≠ [] := by
  unfold parseCSVToTestCases at h
  by_cases hc : content = []
  · rw [if_pos hc] at h; cases h
  · rw [if_neg hc] at h
    rcases hfind : findHeader (jsSplitOn '\n' (jsTrim content)) with _ | ⟨headerLine, dataLines⟩
    · rw [hfind] at h; cases h
    · rw [hfind] at h
      exact foldl_procLine_good (headerCells headerLine) dataLines []
        (by intro t ht; cases ht) tc h

/-- Witness for C3 at a concrete input with one accepted record. -/
theorem c3_required_field_gate_witness :
    ({ id := str "TC-1", title := str "T" } : TestCase) ∈
      parseCSVToTestCases (str "TestID,Title\nTC-1,T") ∧
    (jsTrim ({ id := str "TC-1", title := str "T" } : TestCase).id ≠ [] ∧
     jsTrim ({ id := str "TC-1", title := str "T" } : TestCase).title ≠ []) :=
  ⟨by decide,
    c3_required_field_gate (str "TestID,Title\nTC-1,T")
      ({ id := str "TC-1", title := str "T" } : TestCase) (by decide)⟩

/-- C4 counterexample: the string consisting of one newline contains a
newline, yet tokenizing its escaped form yields the empty field, not
the original string — the final trim erases it. -/
theorem c4_cex :
    hasChar '\n' (str "\n") = true ∧
    parseCSVLine (escapeCSVField (str "\n")) ≠ [str "\n"] := by decide

/-- C4 (amended): for every string containing a comma, quote, or
newline that is fixed by trimming, tokenizing its CSV-escaped form
yields exactly that one-element sequence. -/
theorem c4_round_trip (s : JStr)
    (hspecial : (hasChar ',' s || hasChar '\n' s || hasChar '"' s) = true)
    (htrim : jsTrim s = s) :
    parseCSVLine (escapeCSVField s) = [s] := by
  have hne : s ≠ [] := by
    intro he; subst he; simp [hasChar] at hspecial
  have hesc : escapeCSVField s = '"' :: escQuotes s ++ ['"'] := by
    unfold escapeCSVField
    rw [if_neg hne, if_pos hspecial]
  rw [hesc]
  unfold parseCSVLine
  rw [List.cons_append, parseCSVLineAux_quote_off, parseCSVLineAux_quoted]
  simp [htrim]

/-- Witness for C4 at a concrete comma-containing string. -/
theorem c4_round_trip_witness :
    ((hasChar ',' (str "a,b") || hasChar '\n' (str "a,b") || hasChar '"' (str "a,b")) = true ∧
     jsTrim (str "a,b") = str "a,b") ∧
    parseCSVLine (escapeCSVField (str "a,b")) = [str "a,b"] :=
  ⟨⟨by decide, by decide⟩, c4_round_trip _ (by decide) (by decide)⟩

/-- C5 counterexample: the empty sequence of steps (vacuously free of
pipes and newlines) joins to the empty string, which decodes to the
one-element sequence containing the empty string, not to the empty
sequence. -/
theorem c5_cex :
    (∀ s ∈ ([] : List JStr), hasChar '|' s = false ∧ hasChar '\n' s = false) ∧
    decodeSteps (jsJoin (str "|") ([] : List JStr)) ≠ ([] : List JStr) := by decide

/-- C5 (amended): for every non-empty sequence of steps, each fixed by
trimming and containing no pipe and no newline, decoding the
pipe-joined form recovers the sequence. -/
theorem c5_round_trip (steps : List JStr) (hne : steps ≠ [])
    (h : ∀ s ∈ steps, jsTrim s = s ∧ hasChar '|' s = false ∧ hasChar '\n' s = false) :
    decodeSteps (jsJoin (str "|") steps) = steps := by
  rcases steps with _ | ⟨x, xs⟩
  · exact absurd rfl hne
  rcases xs with _ | ⟨y, ys⟩
  · obtain ⟨hx1, hx2, hx3⟩ := h x (by simp)
    show decodeSteps x = [x]
    simp [decodeSteps, hx2, hx3]
  · have hjoin : jsJoin (str "|") (x :: y :: ys) = x ++ '|' :: jsJoin (str "|") (y :: ys) := by
      show jsJoin ['|'] (x :: y :: ys) = x ++ '|' :: jsJoin ['|'] (y :: ys)
      simp [jsJoin]
    have hpipe : hasChar '|' (jsJoin (str "|") (x :: y :: ys)) = true := by
      rw [hjoin]; exact hasChar_append_cons '|' x _
    unfold decodeSteps
    rw [if_pos hpipe]
    have hsplit : jsSplitOn '|' (jsJoin (str "|") (x :: y :: ys)) = x :: y :: ys :=
      jsSplitOn_jsJoin '|' (x :: y :: ys) (by simp) (fun s hs => (h s hs).2.1)
    rw [hsplit]
    exact map_id_of_mem _ (fun s hs => (h s hs).1)

/-- Witness for C5 at a concrete two-step sequence. -/
theorem c5_round_trip_witness :
    (([str "a", str "b"] : List JStr) ≠ [] ∧
     ∀ s ∈ ([str "a", str "b"] : List JStr),
       jsTrim s = s ∧ hasChar '|' s = false ∧ hasChar '\n' s = false) ∧
    decodeSteps (jsJoin (str "|") [str "a", str "b"]) = [str "a", str "b"] :=
  ⟨⟨by decide, by decide⟩, c5_round_trip _ (by decide) (by decide)⟩

/-- C6 counterexample: a data row whose steps cell is empty produces a
record whose steps field is the one-element sequence containing the
empty string, which is not the empty sequence. -/
theorem c6_cex :
    (parseCSVToTestCases (str "TestID,Title,Steps\nTC-1,T,")).map (fun tc => tc.steps) =
      [[[]]] ∧
    ([[]] : List JStr) ≠ ([] : List JStr) := by decide

/-- C6 (amended): the empty steps cell decodes to the one-element
sequence containing the empty string (the decoder's final branch wraps
the whole cell as a single step). -/
theorem c6_empty_steps_singleton : decodeSteps [] = [[]] := by decide

/-- The source escaping function satisfies the §4.1 escaping rule. -/
theorem escapeCSVField_per41 (v : JStr) : EscapedPer41 v (escapeCSVField v) := by
  unfold EscapedPer41 escapeCSVField escQuotes
  by_cases hv : v = []
  · subst hv; simp [hasChar]
  · rw [if_neg hv]

/-- C7 counterexample: for a record with both category and type, the
Labels cell holds `Functional, Smoke` — a comma-containing value —
verbatim, violating the §4.1 escaping rule. -/
theorem c7_cex :
    (zephyrRow { id := str "TC-1", title := str "T", steps := [str "s"],
                 expected := str "e", priority := str "High",
                 category := str "Functional", type := str "Smoke" }).getD 7 [] =
      str "Functional, Smoke" ∧
    hasChar ',' (str "Functional, Smoke") = true ∧
    ¬ EscapedPer41 (str "Functional, Smoke") (str "Functional, Smoke") := by decide

/-- C7 (amended): the free-text cells (Name, Objective, Step, Test
Data, Expected Result, Plain-Text Script, BDD Script) are CSV-escaped
per the §4.1 rules; the Labels cell is the `", "`-join of
`[category, type]` (skipping absent values) emitted verbatim, without
escaping. -/
theorem c7_zephyr_escaping (tc : TestCase) :
    EscapedPer41 tc.title ((zephyrRow tc).getD 0 []) ∧
    EscapedPer41 tc.title ((zephyrRow tc).getD 3 []) ∧
    EscapedPer41 (stepTextOf tc) ((zephyrRow tc).getD 12 []) ∧
    EscapedPer41 [] ((zephyrRow tc).getD 13 []) ∧
    EscapedPer41 tc.expected ((zephyrRow tc).getD 14 []) ∧
    EscapedPer41 (plainTextScriptOf tc) ((zephyrRow tc).getD 15 []) ∧
    EscapedPer41 (generateBDDScript tc) ((zephyrRow tc).getD 16 []) ∧
    (zephyrRow tc).getD 7 [] = specLabels tc := by
  refine ⟨?_, ?_, ?_, ?_, ?_, ?_, ?_, ?_⟩
  · show EscapedPer41 tc.title (escapeCSVField tc.title)
    exact escapeCSVField_per41 _
  · show EscapedPer41 tc.title (escapeCSVField tc.title)
    exact escapeCSVField_per41 _
  · show EscapedPer41 (stepTextOf tc) (escapeCSVField (stepTextOf tc))
    exact escapeCSVField_per41 _
  · show EscapedPer41 [] (escapeCSVField [])
    exact escapeCSVField_per41 _
  · show EscapedPer41 tc.expected (escapeCSVField tc.expected)
    exact escapeCSVField_per41 _
  · show EscapedPer41 (plainTextScriptOf tc) (escapeCSVField (plainTextScriptOf tc))
    exact escapeCSVField_per41 _
  · show EscapedPer41 (generateBDDScript tc) (escapeCSVField (generateBDDScript tc))
    exact escapeCSVField_per41 _
  · show formatLabels tc = specLabels tc
    unfold formatLabels specLabels
    by_cases hc : tc.category = [] <;> by_cases ht : tc.type = [] <;>
      simp [hc, ht, jsJoin]

/-- C8 counterexample: a record whose own `qualityScore` field is 8.5
exported with no quality report yields the cell `N/A`, not `8.5/10` —
the formatter reads the report, not the record's field. -/
theorem c8_cex :
    (plainCSVCells [] { id := str "TC-9", title := str "T", steps := [str "s"],
                        expected := str "e", priority := str "High",
                        qualityScore := mkRat 17 2 }).getD 5 [] = str "N/A" ∧
    (mkRat 17 2 : ℚ) ≠ 0 ∧
    str "N/A" ≠ toFixed1 (mkRat 17 2) ++ str "/10" := by decide

/-- C8 (amended): the Quality Score cell of the plain-CSV export equals
the report's `total_score` for the record's id (0 when absent),
formatted `N.N/10` when positive and `N/A` otherwise; the record's own
`qualityScore` field is not consulted. -/
theorem c8_quality_cell (report : QualityReport) (tc : TestCase) :
    (plainCSVCells report tc).getD 5 [] = specQualityCell report tc := by
  have hcell : (plainCSVCells report tc).getD 5 [] =
      (if 0 < reportScore report tc.id then
        toFixed1 (reportScore report tc.id) ++ str "/10" else str "N/A") := rfl
  rw [hcell]
  unfold specQualityCell reportScore
  rw [find?_eq_head_filter]
  rcases h : (report.filter (fun e => e.1 = tc.id)).head? with _ | e
  · simp [h]
  · simp [h]

/-- C9 counterexample: on the header line `"Test, ID",Title` the code's
comma split produces three quote-stripped cells, while the §4.1
tokenizer (with surrounding quotes stripped) produces two. -/
theorem c9_cex :
    headerCells (str "\"Test, ID\",Title") = [str "Test", str "ID", str "Title"] ∧
    specHeaderTokenize (str "\"Test, ID\",Title") = [str "Test, ID", str "Title"] ∧
    headerCells (str "\"Test, ID\",Title") ≠ specHeaderTokenize (str "\"Test, ID\",Title") := by
  decide

/-- C9 (amended): the header line is split at every comma — quoted or
not — so the cell count is always the comma count plus one, and every
quote character anywhere in a cell is removed. -/
theorem c9_header_split (line : JStr) :
    (headerCells line).length = countChar ',' line + 1 ∧
    ∀ h ∈ headerCells line, hasChar '"' h = false := by
  constructor
  · unfold headerCells
    rw [List.length_map, length_jsSplitOn]
  · intro h hh
    unfold headerCells at hh
    rcases List.mem_map.mp hh with ⟨t, _, rfl⟩
    exact hasChar_filter_ne (jsTrim t)

/-- C10: a data row with at least as many fields as the header has
columns is never skipped by the length gate, and only the value
positions covered by header names are read — surplus trailing values
are ignored. -/
theorem c10_surplus_columns (headers values : List JStr)
    (h : headers.length ≤ values.length) :
    buildTestCase headers values = buildTestCase headers (values.take headers.length) ∧
    ¬ (values.length < headers.length) := by
  refine ⟨?_, by omega⟩
  unfold buildTestCase
  exact buildFields_take headers values {}

/-- Witness for C10 at a concrete two-column header with three values. -/
theorem c10_surplus_columns_witness :
    ([str "testid", str "title"] : List JStr).length ≤
      ([str "A", str "B", str "C"] : List JStr).length ∧
    (buildTestCase [str "testid", str "title"] [str "A", str "B", str "C"] =
      buildTestCase [str "testid", str "title"]
        ([str "A", str "B", str "C"].take ([str "testid", str "title"] : List JStr).length) ∧
     ¬ (([str "A", str "B", str "C"] : List JStr).length <
        ([str "testid", str "title"] : List JStr).length)) :=
  ⟨by decide,
    c10_surplus_columns [str "testid", str "title"] [str "A", str "B", str "C"] (by decide)⟩
